import Mathlib

/-!
Verification of the data-transformation and dataset-partitioning pipeline of
`rnn_prediction/rnn_test_eeg.py` (TMSEEG).

A trial matrix is modelled as a list of rows of real numbers
(`List (List ℝ)`); numpy row slicing `data[a:b]` becomes
`(data.drop a).take (b - a)`, which shares numpy's clipping behaviour on
short inputs.
-/

namespace TMSEEG

variable {α : Type} [LinearOrder α] [Inhabited α]

/-- Minimum of a list, as computed by `np.amin` on a 1-D array
(the value on the empty list is an arbitrary default; numpy raises there). -/
def listMin : List α → α
  | [] => default
  | x :: xs => xs.foldl min x

/-- Maximum of a list, as computed by `np.amax` on a 1-D array. -/
def listMax : List α → α
  | [] => default
  | x :: xs => xs.foldl max x

/-!
## Scaler

`minmax_scale` in the source transposes the trial matrix, calls sklearn's
`MinMaxScaler.fit_transform` (which fits one (min, max) pair per column of
its argument, i.e. per **row** of the original matrix), and transposes
back.  sklearn maps `x ↦ (x - min) * scale` with
`scale = 1 / handle_zeros(max - min)`, where a zero range is replaced
by 1.  The linear minmax pipeline is modelled over `ℚ` (exact field
arithmetic, so concrete instances can be decided); the log pipeline must
live over `ℝ` because of `log`/`**`.
-/

/-- The divisor sklearn uses for one fitted row: `max - min`, with a zero
range replaced by 1 (`_handle_zeros_in_scale`). -/
def rowDiv (row : List ℚ) : ℚ :=
  if listMax row - listMin row = 0 then 1 else listMax row - listMin row

/-- One row of the trial matrix scaled by sklearn's per-feature affine map
`x ↦ (x - min) / handle_zeros(max - min)` with `feature_range = (0, 1)`. -/
def scaleRow (row : List ℚ) : List ℚ :=
  row.map (fun x => (x - listMin row) / rowDiv row)

/-- The function `minmax_scale(data)`: transpose, fit/transform per column of the
transpose (= per row of `data`), transpose back.  Net effect: each row is
scaled with its own (min, max). -/
def minmax_scale (data : List (List ℚ)) : List (List ℚ) :=
  data.map scaleRow

/-- The state the returned sklearn scaler retains: one (min, max) pair per
row of the original matrix (per column of the transposed input it was fit
on). -/
def minmax_state (data : List (List ℚ)) : List (ℚ × ℚ) :=
  data.map (fun row => (listMin row, listMax row))

/-- Embeds sklearn's `inverse_transform` for one fitted row:
`x ↦ x * handle_zeros(max - min) + min`. -/
def invertRow (p : ℚ × ℚ) (row : List ℚ) : List ℚ :=
  row.map (fun x =>
    x * (if p.2 - p.1 = 0 then 1 else p.2 - p.1) + p.1)

/-- Embeds `inverse_transform` of the whole scaled matrix using the retained
per-row state. -/
def minmax_invert (state : List (ℚ × ℚ)) (data : List (List ℚ)) :
    List (List ℚ) :=
  (state.zip data).map (fun sr => invertRow sr.1 sr.2)

/-- The quantity `inc = 1 + abs(np.amin(data))` of `log_scale`: the shift added to every
entry of the matrix before taking logarithms; `np.amin` of a 2-D array is
the minimum over all entries. -/
noncomputable def log_inc (data : List (List ℝ)) : ℝ :=
  1 + |listMin data.flatten|

/-- The state of the caller's array after `log_scale` ran: the source does
`data += inc` **in place**, so afterwards the buffer holds `M + inc`
entrywise. -/
noncomputable def log_buffer (data : List (List ℝ)) : List (List ℝ) :=
  data.map (fun row => row.map (fun x => x + log_inc data))

/-- The function `log_scale(data)`: shifts the data by `inc = 1 + abs(min)` (in place)
and applies `log` base 12 elementwise; returns the scaled matrix and
`inc`. -/
noncomputable def log_scale (data : List (List ℝ)) : List (List ℝ) × ℝ :=
  ((log_buffer data).map (fun row => row.map (fun x => Real.logb 12 x)),
   log_inc data)

/-- Embeds `inv_logscale` applied to a 1-D array: `x ↦ base ** x - inc` with
`base = 12`. -/
noncomputable def inv_logscale_row (row : List ℝ) (inc : ℝ) : List ℝ :=
  row.map (fun x => (12 : ℝ) ^ x - inc)

/-- Embeds `inv_logscale` applied to a 2-D array. -/
noncomputable def inv_logscale (data : List (List ℝ)) (inc : ℝ) :
    List (List ℝ) :=
  data.map (fun row => inv_logscale_row row inc)

/-!
## Dataset partitioner

`create_dataset(data, input_size, device)` slices rows with numpy slices
`[4:29]`, `[:4]`, `[29:]` (which silently clip on short inputs) and
derives each output by dropping the first `input_size` columns.  The
slicing involves no arithmetic, so it is modelled generically in the entry
type.
-/

structure Dataset (β : Type) where
  train_input : List (List β)
  train_output : List (List β)
  test_input : List (List β)
  test_output : List (List β)
  validation_input : List (List β)
  validation_output : List (List β)
deriving DecidableEq

def create_dataset {β : Type} (data : List (List β)) (input_size : ℕ) :
    Dataset β where
  train_input := (data.drop 4).take 25
  train_output := ((data.drop 4).take 25).map (fun row => row.drop input_size)
  test_input := data.take 4
  test_output := (data.take 4).map (fun row => row.drop input_size)
  validation_input := data.drop 29
  validation_output := (data.drop 29).map (fun row => row.drop input_size)

/-!
## Training/evaluation loop

The epoch loop of `main` calls `train_model` then `test_model` once per
epoch, and after the loop calls `test_model` once on the validation pair.
The model collaborator is external; we record the sequence of calls it
receives, with the data each call is given.
-/

inductive Call (β : Type) where
  | train_model (inp out : β)
  | test_model (inp out : β)
deriving DecidableEq

def Call.isTrain {β : Type} : Call β → Bool
  | .train_model _ _ => true
  | .test_model _ _ => false

/-- Calls issued by the `for epoch in range(epochs)` loop: each iteration
appends one `train_model` call on the train pair and one `test_model`
call on the test pair. -/
def main_loop_calls {β : Type} (tin tout tein teout : β) : ℕ → List (Call β)
  | 0 => []
  | e + 1 =>
      main_loop_calls tin tout tein teout e ++
        [Call.train_model tin tout, Call.test_model tein teout]

/-- All model calls issued by `main`: the epoch loop followed by the final
`test_model` call on the validation pair, whose result is `model_output`. -/
def main_calls {β : Type} (tin tout tein teout vin vout : β) (epochs : ℕ) :
    List (Call β) :=
  main_loop_calls tin tout tein teout epochs ++ [Call.test_model vin vout]

/-!
## Inverse-transform and reporting

The minmax reporting branch of `main` takes row 0 of the validation input
(columns `input_size:`) and row 0 of the model output (all but the last
column), and rescales both by `x * (b - a) + a` where `a`, `b` are the
min and max of the **last row of the original unscaled matrix**.  It never
calls the sklearn scaler's `inverse_transform`.  The log branch applies
`inv_logscale` with the retained `inc`.
-/

/-- The `(real_inp, real_out)` pair the minmax branch hands to
`plot_results`. -/
def report_minmax (validation_input model_output unscaled : List (List ℚ))
    (input_size : ℕ) : List ℚ × List ℚ :=
  (((validation_input.headD []).drop input_size).map
     (fun x => x * (listMax (unscaled.getLastD []) -
                    listMin (unscaled.getLastD [])) +
               listMin (unscaled.getLastD [])),
   ((model_output.headD []).dropLast).map
     (fun x => x * (listMax (unscaled.getLastD []) -
                    listMin (unscaled.getLastD [])) +
               listMin (unscaled.getLastD [])))

/-- The `(input_inverted, output_inverted)` pair the log branch hands to
`plot_results`. -/
noncomputable def report_log (validation_input model_output : List (List ℝ))
    (inc : ℝ) (input_size : ℕ) : List ℝ × List ℝ :=
  (inv_logscale_row ((validation_input.headD []).drop input_size) inc,
   inv_logscale_row (model_output.headD []) inc)

/-- Modelled from the spec: the column-`j` values of the matrix, used to
state the claimed **per-column** fit of the MinMax scaler. -/
def colVals (data : List (List ℚ)) (j : ℕ) : List ℚ :=
  data.map (fun row => row.getD j 0)

/-- Modelled from the spec: the claimed MinMax scaling law
`scaled[i][j] = (M[i][j] - min_j) / (max_j - min_j)` where `min_j`/`max_j`
range over column `j` across all rows. -/
def minmax_scale_colwise (data : List (List ℚ)) : List (List ℚ) :=
  data.map (fun row =>
    (List.range row.length).map (fun j =>
      (row.getD j 0 - listMin (colVals data j)) /
        (listMax (colVals data j) - listMin (colVals data j))))

/-- Modelled from the spec: `invert_and_report` in MinMax mode as claimed,
first applying the scaler's inverse with the retained ScalerState pair
`st = (min, max)` (sklearn inverse `x ↦ x * (max - min) + min`) and then
the secondary rescaling `x ↦ x * (b - a) + a` with `a`, `b` the min/max
of the last row of the original unscaled matrix. -/
def report_minmax_spec (validation_input model_output unscaled : List (List ℚ))
    (input_size : ℕ) (st : ℚ × ℚ) : List ℚ × List ℚ :=
  (((validation_input.headD []).drop input_size).map
     (fun x => (x * (if st.2 - st.1 = 0 then 1 else st.2 - st.1) + st.1) *
         (listMax (unscaled.getLastD []) - listMin (unscaled.getLastD [])) +
       listMin (unscaled.getLastD [])),
   ((model_output.headD []).dropLast).map
     (fun x => (x * (if st.2 - st.1 = 0 then 1 else st.2 - st.1) + st.1) *
         (listMax (unscaled.getLastD []) - listMin (unscaled.getLastD [])) +
       listMin (unscaled.getLastD [])))

/-- A 33-row trial matrix of the canonical trial count, used to instantiate
the split theorems. -/
def sample33 : List (List ℕ) := List.replicate 33 []

/-!
## Helper lemmas
-/

lemma foldl_min_le_init (l : List α) (x : α) : l.foldl min x ≤ x := by
  induction l generalizing x with
  | nil => simp
  | cons a t ih =>
    exact le_trans (ih (min x a)) (min_le_left x a)

lemma foldl_min_le_mem {l : List α} {a : α} (h : a ∈ l) (x : α) :
    l.foldl min x ≤ a := by
  induction l generalizing x with
  | nil => cases h
  | cons b t ih =>
    rcases List.mem_cons.mp h with rfl | h
    · exact le_trans (foldl_min_le_init t (min x a)) (min_le_right x a)
    · exact ih h (min x b)

lemma listMin_le_of_mem {l : List α} {a : α} (h : a ∈ l) : listMin l ≤ a := by
  cases l with
  | nil => cases h
  | cons x xs =>
    rcases List.mem_cons.mp h with rfl | h
    · exact foldl_min_le_init xs a
    · exact foldl_min_le_mem h x

lemma foldl_min_eq_or_mem (l : List α) (x : α) :
    l.foldl min x = x ∨ l.foldl min x ∈ l := by
  induction l generalizing x with
  | nil => exact Or.inl rfl
  | cons a t ih =>
    rcases ih (min x a) with h | h
    · rcases min_cases x a with ⟨hm, _⟩ | ⟨hm, _⟩
      · exact Or.inl (by rw [List.foldl_cons, h, hm])
      · exact Or.inr (by rw [List.foldl_cons, h, hm]; exact List.mem_cons_self a t)
    · exact Or.inr (List.mem_cons_of_mem a h)

lemma listMin_mem {l : List α} (h : l ≠ []) : listMin l ∈ l := by
  cases l with
  | nil => exact absurd rfl h
  | cons x xs =>
    rcases foldl_min_eq_or_mem xs x with h' | h'
    · rw [listMin, h']; exact List.mem_cons_self x xs
    · exact List.mem_cons_of_mem x h'

lemma le_foldl_max_init (l : List α) (x : α) : x ≤ l.foldl max x := by
  induction l generalizing x with
  | nil => simp
  | cons a t ih =>
    exact le_trans (le_max_left x a) (ih (max x a))

lemma mem_le_foldl_max {l : List α} {a : α} (h : a ∈ l) (x : α) :
    a ≤ l.foldl max x := by
  induction l generalizing x with
  | nil => cases h
  | cons b t ih =>
    rcases List.mem_cons.mp h with rfl | h
    · exact le_trans (le_max_right x a) (le_foldl_max_init t (max x a))
    · exact ih h (max x b)

lemma le_listMax_of_mem {l : List α} {a : α} (h : a ∈ l) : a ≤ listMax l := by
  cases l with
  | nil => cases h
  | cons x xs =>
    rcases List.mem_cons.mp h with rfl | h
    · exact le_foldl_max_init xs a
    · exact mem_le_foldl_max h x

lemma foldl_max_eq_or_mem (l : List α) (x : α) :
    l.foldl max x = x ∨ l.foldl max x ∈ l := by
  induction l generalizing x with
  | nil => exact Or.inl rfl
  | cons a t ih =>
    rcases ih (max x a) with h | h
    · rcases max_cases x a with ⟨hm, _⟩ | ⟨hm, _⟩
      · exact Or.inl (by rw [List.foldl_cons, h, hm])
      · exact Or.inr (by rw [List.foldl_cons, h, hm]; exact List.mem_cons_self a t)
    · exact Or.inr (List.mem_cons_of_mem a h)

lemma listMax_mem {l : List α} (h : l ≠ []) : listMax l ∈ l := by
  cases l with
  | nil => exact absurd rfl h
  | cons x xs =>
    rcases foldl_max_eq_or_mem xs x with h' | h'
    · rw [listMax, h']; exact List.mem_cons_self x xs
    · exact List.mem_cons_of_mem x h'

lemma listMin_le_listMax {l : List α} (h : l ≠ []) : listMin l ≤ listMax l :=
  le_listMax_of_mem (listMin_mem h)


lemma list_map_id_of {β : Type} (l : List β) (f : β → β)
    (h : ∀ x ∈ l, f x = x) : l.map f = l := by
  induction l with
  | nil => rfl
  | cons a t ih =>
    rw [List.map_cons, h a (List.mem_cons_self a t),
        ih (fun x hx => h x (List.mem_cons_of_mem a hx))]

lemma getD_map_nil {β γ : Type} (f : List β → List γ) (hf : f [] = [])
    (data : List (List β)) (i : ℕ) :
    (data.map f).getD i [] = f (data.getD i []) := by
  induction data generalizing i with
  | nil => simp [hf]
  | cons r t ih =>
    cases i with
    | zero => simp
    | succ n => simpa using ih n

lemma getD_map_entry {β γ : Type} (g : β → γ) (row : List β) (j : ℕ)
    (h : j < row.length) (d : β) (d' : γ) :
    (row.map g).getD j d' = g (row.getD j d) := by
  rw [List.getD_eq_getElem?_getD, List.getD_eq_getElem?_getD,
      List.getElem?_map, List.getElem?_eq_getElem h]
  rfl

lemma getD_mem {β : Type} {row : List β} {j : ℕ} (h : j < row.length)
    (d : β) : row.getD j d ∈ row := by
  rw [List.getD_eq_getElem row d h]
  exact List.getElem_mem h

lemma headD_map_nil {β γ : Type} (f : List β → List γ) (hf : f [] = [])
    (l : List (List β)) : (l.map f).headD [] = f (l.headD []) := by
  cases l <;> simp [hf]

lemma listMin_eq_of {l : List α} {c : α} (hc : c ∈ l)
    (h : ∀ x ∈ l, c ≤ x) : listMin l = c :=
  le_antisymm (listMin_le_of_mem hc)
    (h _ (listMin_mem (List.ne_nil_of_mem hc)))

lemma listMax_eq_of {l : List α} {c : α} (hc : c ∈ l)
    (h : ∀ x ∈ l, x ≤ c) : listMax l = c :=
  le_antisymm (h _ (listMax_mem (List.ne_nil_of_mem hc)))
    (le_listMax_of_mem hc)

lemma listMin_lt_listMax_of_distinct {l : List α} {a b : α}
    (ha : a ∈ l) (hb : b ∈ l) (hab : a ≠ b) : listMin l < listMax l := by
  rcases lt_or_eq_of_le (listMin_le_listMax (List.ne_nil_of_mem ha)) with h | h
  · exact h
  · exfalso
    apply hab
    have hA : a = listMin l :=
      le_antisymm ((le_listMax_of_mem ha).trans h.ge) (listMin_le_of_mem ha)
    have hB : b = listMin l :=
      le_antisymm ((le_listMax_of_mem hb).trans h.ge) (listMin_le_of_mem hb)
    rw [hA, hB]

lemma add_log_inc_pos {data : List (List ℝ)} {x : ℝ}
    (hx : x ∈ data.flatten) : 0 < x + log_inc data := by
  have h1 : listMin data.flatten ≤ x := listMin_le_of_mem hx
  have h2 : -|listMin data.flatten| ≤ listMin data.flatten := neg_abs_le _
  unfold log_inc
  linarith

lemma log_roundtrip_entry {data : List (List ℝ)} {x : ℝ}
    (hx : x ∈ data.flatten) :
    (12 : ℝ) ^ Real.logb 12 (x + log_inc data) - log_inc data = x := by
  rw [Real.rpow_logb (by norm_num) (by norm_num) (add_log_inc_pos hx)]
  ring

lemma minmax_roundtrip_row (row : List ℚ) :
    invertRow (listMin row, listMax row) (scaleRow row) = row := by
  unfold invertRow scaleRow rowDiv
  rw [List.map_map]
  apply list_map_id_of
  intro x hx
  simp only [Function.comp_apply]
  by_cases h : listMax row - listMin row = 0
  · rw [if_pos h]
    ring
  · rw [if_neg h, div_mul_cancel₀ _ h]
    ring

lemma minmax_roundtrip (data : List (List ℚ)) :
    minmax_invert (minmax_state data) (minmax_scale data) = data := by
  unfold minmax_invert minmax_state minmax_scale
  rw [List.zip_map', List.map_map]
  apply list_map_id_of
  intro row hrow
  simp only [Function.comp_apply]
  exact minmax_roundtrip_row row

lemma log_roundtrip (data : List (List ℝ)) :
    inv_logscale (log_scale data).1 (log_scale data).2 = data := by
  unfold inv_logscale log_scale log_buffer inv_logscale_row
  simp only [List.map_map]
  apply list_map_id_of
  intro row hrow
  simp only [Function.comp_apply, List.map_map]
  apply list_map_id_of
  intro x hx
  simp only [Function.comp_apply]
  exact log_roundtrip_entry (List.mem_flatten.mpr ⟨row, hrow, hx⟩)

lemma split_coverage {β : Type} (data : List (List β)) (k : ℕ) :
    (create_dataset data k).test_input ++ (create_dataset data k).train_input
      ++ (create_dataset data k).validation_input = data := by
  show data.take 4 ++ (data.drop 4).take 25 ++ data.drop 29 = data
  have h29 : data.take 4 ++ (data.drop 4).take 25 = data.take 29 :=
    (List.take_add data 4 25).symm
  rw [List.append_assoc, ← List.append_assoc, h29, List.take_append_drop]

lemma loop_countP_isTrain {β : Type} (tin tout tein teout : β) (e : ℕ) :
    ((main_loop_calls tin tout tein teout e).countP
        (fun c => c.isTrain)) = e := by
  induction e with
  | zero => rfl
  | succ n ih =>
    rw [main_loop_calls, List.countP_append, ih]
    rfl

lemma loop_mem {β : Type} {tin tout tein teout : β} {e : ℕ} {c : Call β}
    (hc : c ∈ main_loop_calls tin tout tein teout e) :
    c = Call.train_model tin tout ∨ c = Call.test_model tein teout := by
  induction e with
  | zero => cases hc
  | succ n ih =>
    rw [main_loop_calls] at hc
    rcases List.mem_append.mp hc with h | h
    · exact ih h
    · rcases List.mem_cons.mp h with rfl | h
      · exact Or.inl rfl
      · rcases List.mem_cons.mp h with rfl | h
        · exact Or.inr rfl
        · cases h

lemma loop_countP_val {β : Type} [DecidableEq β]
    {tin tout tein teout vin vout : β}
    (hdist : (tein, teout) ≠ (vin, vout)) (e : ℕ) :
    ((main_loop_calls tin tout tein teout e).countP
        (fun c => c == Call.test_model vin vout)) = 0 := by
  have hne : ¬(tein = vin ∧ teout = vout) := by
    intro hand
    exact hdist (Prod.ext hand.1 hand.2)
  induction e with
  | zero => rfl
  | succ n ih =>
    rw [main_loop_calls, List.countP_append, ih]
    have h2 : ¬(Call.test_model tein teout = Call.test_model vin vout) := by
      intro h
      injection h with h1 h2
      exact hne ⟨h1, h2⟩
    simp only [List.countP_cons, List.countP_nil, beq_iff_eq]
    rw [if_neg h2, if_neg (by simp)]

/-!
## Claims
-/

/-- C3: for every matrix `M`, applying the scaler's inverse transform to the
scaled output of `fit_transform(M)`, with the state produced by that fit,
recovers `M` exactly, in both MinMax and Log modes; in Log mode,
`inv_logscale (log_scale M).scaled shift = M` where
`shift = 1 + abs (min M)` and the base is 12. -/
theorem C3_round_trip :
    (∀ data : List (List ℚ),
        minmax_invert (minmax_state data) (minmax_scale data) = data) ∧
      (∀ data : List (List ℝ),
        inv_logscale (log_scale data).1 (log_scale data).2 = data) :=
  ⟨minmax_roundtrip, log_roundtrip⟩

/-- C9: in Log mode, after the shift `1 + abs (min matrix)` is added to every
entry, every value fed to the base-12 logarithm is strictly positive, so
the logarithm's domain-error branch is unreachable. -/
theorem C9_log_positivity (data : List (List ℝ)) :
    ∀ y ∈ (log_buffer data).flatten, 0 < y := by
  intro y hy
  rcases List.mem_flatten.mp hy with ⟨row2, hrow2, hyrow⟩
  simp only [log_buffer, List.mem_map] at hrow2
  rcases hrow2 with ⟨row, hrow, rfl⟩
  rcases List.mem_map.mp hyrow with ⟨x, hx, rfl⟩
  exact add_log_inc_pos (List.mem_flatten.mpr ⟨row, hrow, hx⟩)

/-- Witness for C9 at the spec's own log scenario `M = [[-2,0],[3,5]]`. -/
theorem C9_log_positivity_witness :
    ((-2 : ℝ) + log_inc [[(-2 : ℝ), 0], [3, 5]] ∈
        (log_buffer [[(-2 : ℝ), 0], [3, 5]]).flatten) ∧
      0 < (-2 : ℝ) + log_inc [[(-2 : ℝ), 0], [3, 5]] := by
  have hm : (-2 : ℝ) + log_inc [[(-2 : ℝ), 0], [3, 5]] ∈
      (log_buffer [[(-2 : ℝ), 0], [3, 5]]).flatten := by
    simp [log_buffer]
  exact ⟨hm, C9_log_positivity _ _ hm⟩

/-- C8 counterexample: the claim that `fit_transform` leaves the original
matrix unchanged fails in Log mode: `log_scale` executes `data += inc` in
place, so after scaling `[[0]]` the caller's buffer holds `[[1]]`, not the
original `[[0]]`. -/
theorem C8_counterexample : log_buffer [[(0 : ℝ)]] ≠ [[(0 : ℝ)]] := by
  have hinc : log_inc [[(0 : ℝ)]] = 1 := by
    simp [log_inc, listMin]
  intro h
  have h1 : (0 : ℝ) + log_inc [[(0 : ℝ)]] = 0 := by
    have h2 := congrArg (fun m : List (List ℝ) => (m.getD 0 []).getD 0 0) h
    simpa [log_buffer] using h2
  rw [hinc] at h1
  norm_num at h1

/-- C8 corrected: MinMax scaling leaves the caller's matrix unchanged
(sklearn's `fit_transform` copies), but in Log mode `log_scale` adds
`shift = 1 + abs (min M)` to the caller's buffer in place: afterwards every
entry of the buffer equals the original entry plus the shift (which is at
least 1), and hence differs from the original entry. -/
theorem C8_log_mutates (data : List (List ℝ)) (i j : ℕ)
    (h : j < (data.getD i []).length) :
    ((log_buffer data).getD i []).getD j 0
        = (data.getD i []).getD j 0 + log_inc data ∧
      ((log_buffer data).getD i []).getD j 0 ≠ (data.getD i []).getD j 0 := by
  have hrow : (log_buffer data).getD i []
      = (data.getD i []).map (fun x => x + log_inc data) :=
    getD_map_nil _ rfl data i
  have hentry : ((log_buffer data).getD i []).getD j 0
      = (data.getD i []).getD j 0 + log_inc data := by
    rw [hrow]
    exact getD_map_entry _ _ _ h 0 0
  refine ⟨hentry, ?_⟩
  rw [hentry]
  have hge : (1 : ℝ) ≤ log_inc data := by
    have habs := abs_nonneg (listMin data.flatten)
    unfold log_inc
    linarith
  intro hcontra
  linarith

/-- Witness for C8's corrected theorem at the matrix `[[0]]`, entry (0,0). -/
theorem C8_log_mutates_witness :
    (0 < ([[(0 : ℝ)]].getD 0 []).length) ∧
      (((log_buffer [[(0 : ℝ)]]).getD 0 []).getD 0 0
          = ([[(0 : ℝ)]].getD 0 []).getD 0 0 + log_inc [[(0 : ℝ)]] ∧
        ((log_buffer [[(0 : ℝ)]]).getD 0 []).getD 0 0
          ≠ ([[(0 : ℝ)]].getD 0 []).getD 0 0) :=
  ⟨by simp, C8_log_mutates [[(0 : ℝ)]] 0 0 (by simp)⟩

/-- C6 counterexample: a matrix with fewer than 30 rows and fewer columns
than `lookback + 1` does not make `create_dataset` fail: the numpy slices
silently clip, and an ordinary result is returned. -/
theorem C6_counterexample :
    create_dataset [[(0 : ℚ)]] 5 =
      { train_input := [], train_output := [], test_input := [[0]],
        test_output := [[]], validation_input := [],
        validation_output := [] } := by
  rfl

/-- C6 corrected: `create_dataset` performs no size validation and raises
no error.  For every matrix with at most 29 rows it still returns a
result, in which the validation range is empty and the three input ranges
still cover the matrix exactly. -/
theorem C6_no_size_check {β : Type} (data : List (List β)) (k : ℕ)
    (h : data.length ≤ 29) :
    (create_dataset data k).validation_input = [] ∧
      (create_dataset data k).test_input ++ (create_dataset data k).train_input
          ++ (create_dataset data k).validation_input = data :=
  ⟨List.drop_eq_nil_of_le h, split_coverage data k⟩

/-- Witness for C6's corrected theorem at the one-row matrix `[[0]]`. -/
theorem C6_no_size_check_witness :
    (([[(0 : ℚ)]] : List (List ℚ)).length ≤ 29) ∧
      ((create_dataset [[(0 : ℚ)]] 5).validation_input = [] ∧
        (create_dataset [[(0 : ℚ)]] 5).test_input ++
            (create_dataset [[(0 : ℚ)]] 5).train_input ++
            (create_dataset [[(0 : ℚ)]] 5).validation_input = [[(0 : ℚ)]]) :=
  ⟨by simp, C6_no_size_check [[(0 : ℚ)]] 5 (by simp)⟩

/-- C2: for every matrix with at least 30 rows, the split produces exactly
the three fixed row ranges — test = rows [0,4), train = rows [4,29),
validation = rows [29,end) — and these are pairwise disjoint and cover the
full row index range exactly once: their concatenation is the original row
list, with no overlap and no gap. -/
theorem C2_split_partition {β : Type} (data : List (List β)) (k : ℕ)
    (h : 30 ≤ data.length) :
    ((create_dataset data k).test_input.length = 4 ∧
        ∀ i, i < 4 → (create_dataset data k).test_input[i]? = data[i]?) ∧
      ((create_dataset data k).train_input.length = 25 ∧
        ∀ i, i < 25 →
          (create_dataset data k).train_input[i]? = data[4 + i]?) ∧
      ((create_dataset data k).validation_input.length = data.length - 29 ∧
        ∀ i, (create_dataset data k).validation_input[i]? = data[29 + i]?) ∧
      (create_dataset data k).test_input ++ (create_dataset data k).train_input
          ++ (create_dataset data k).validation_input = data := by
  refine ⟨⟨?_, ?_⟩, ⟨?_, ?_⟩, ⟨?_, ?_⟩, split_coverage data k⟩
  · show (data.take 4).length = 4
    rw [List.length_take]
    omega
  · intro i hi
    show (data.take 4)[i]? = data[i]?
    rw [List.getElem?_take, if_pos hi]
  · show ((data.drop 4).take 25).length = 25
    rw [List.length_take, List.length_drop]
    omega
  · intro i hi
    show ((data.drop 4).take 25)[i]? = data[4 + i]?
    rw [List.getElem?_take, if_pos hi]
    exact List.getElem?_drop data 4 i
  · show (data.drop 29).length = data.length - 29
    exact List.length_drop 29 data
  · intro i
    exact List.getElem?_drop data 29 i

/-- Witness for C2 at a 33-row matrix (the spec's split scenario size). -/
theorem C2_split_partition_witness :
    (30 ≤ sample33.length) ∧
      (((create_dataset sample33 0).test_input.length = 4 ∧
          ∀ i, i < 4 →
            (create_dataset sample33 0).test_input[i]? = sample33[i]?) ∧
        ((create_dataset sample33 0).train_input.length = 25 ∧
          ∀ i, i < 25 →
            (create_dataset sample33 0).train_input[i]? = sample33[4 + i]?) ∧
        ((create_dataset sample33 0).validation_input.length
              = sample33.length - 29 ∧
          ∀ i, (create_dataset sample33 0).validation_input[i]?
              = sample33[29 + i]?) ∧
        (create_dataset sample33 0).test_input ++
            (create_dataset sample33 0).train_input ++
            (create_dataset sample33 0).validation_input = sample33) :=
  ⟨by norm_num [sample33], C2_split_partition sample33 0 (by norm_num [sample33])⟩

/-- C1 counterexample: at the spec's own MinMax scenario
`M = [[0,10],[5,15],[10,20]]`, the code's scaling gives `scaled[0][1] = 1`,
whereas the claimed per-column law
`(M[0][1] - min_1) / (max_1 - min_1) = (10 - 10) / (20 - 10)` gives 0:
the scaler is fit per row (trial), not per column. -/
theorem C1_counterexample :
    ((minmax_scale [[(0 : ℚ), 10], [5, 15], [10, 20]]).getD 0 []).getD 1 0
      ≠ ((([[(0 : ℚ), 10], [5, 15], [10, 20]] : List (List ℚ)).getD 0 []).getD 1 0
            - listMin (colVals [[(0 : ℚ), 10], [5, 15], [10, 20]] 1))
          / (listMax (colVals [[(0 : ℚ), 10], [5, 15], [10, 20]] 1)
            - listMin (colVals [[(0 : ℚ), 10], [5, 15], [10, 20]] 1)) := by
  norm_num [minmax_scale, scaleRow, rowDiv, colVals, listMin, listMax,
    min_def, max_def]

/-- C1 corrected: the MinMax scaler fits one (min, max) pair per **row**
(per trial), not per column, and maps each row linearly into [0,1]: every
valid entry of the scaled output equals
`(M[i][j] - rowmin_i) / d_i` with `d_i = rowmax_i - rowmin_i` (replaced by
1 for a constant row), and lies in `[0, 1]`. -/
theorem C1_per_row_scaling (data : List (List ℚ)) (i j : ℕ)
    (h : j < (data.getD i []).length) :
    ((minmax_scale data).getD i []).getD j 0
        = ((data.getD i []).getD j 0 - listMin (data.getD i []))
            / rowDiv (data.getD i []) ∧
      0 ≤ ((minmax_scale data).getD i []).getD j 0 ∧
      ((minmax_scale data).getD i []).getD j 0 ≤ 1 := by
  have hrow : (minmax_scale data).getD i [] = scaleRow (data.getD i []) :=
    getD_map_nil _ rfl data i
  have hentry : ((minmax_scale data).getD i []).getD j 0
      = ((data.getD i []).getD j 0 - listMin (data.getD i []))
          / rowDiv (data.getD i []) := by
    rw [hrow]
    exact getD_map_entry _ _ _ h 0 0
  have hx : (data.getD i []).getD j 0 ∈ data.getD i [] := getD_mem h 0
  have hlo : listMin (data.getD i []) ≤ (data.getD i []).getD j 0 :=
    listMin_le_of_mem hx
  have hhi : (data.getD i []).getD j 0 ≤ listMax (data.getD i []) :=
    le_listMax_of_mem hx
  refine ⟨hentry, ?_, ?_⟩
  · rw [hentry]
    unfold rowDiv
    by_cases h0 : listMax (data.getD i []) - listMin (data.getD i []) = 0
    · rw [if_pos h0, div_one]
      linarith
    · rw [if_neg h0]
      have hpos : 0 < listMax (data.getD i []) - listMin (data.getD i []) :=
        lt_of_le_of_ne (by linarith) (Ne.symm h0)
      exact div_nonneg (by linarith) hpos.le
  · rw [hentry]
    unfold rowDiv
    by_cases h0 : listMax (data.getD i []) - listMin (data.getD i []) = 0
    · rw [if_pos h0, div_one]
      linarith
    · rw [if_neg h0]
      have hpos : 0 < listMax (data.getD i []) - listMin (data.getD i []) :=
        lt_of_le_of_ne (by linarith) (Ne.symm h0)
      rw [div_le_one hpos]
      linarith

/-- Witness for C1's corrected theorem at `M = [[0,10]]`, entry (0,1). -/
theorem C1_per_row_scaling_witness :
    (1 < (([[(0 : ℚ), 10]] : List (List ℚ)).getD 0 []).length) ∧
      (((minmax_scale [[(0 : ℚ), 10]]).getD 0 []).getD 1 0
          = ((([[(0 : ℚ), 10]] : List (List ℚ)).getD 0 []).getD 1 0
                - listMin (([[(0 : ℚ), 10]] : List (List ℚ)).getD 0 []))
              / rowDiv (([[(0 : ℚ), 10]] : List (List ℚ)).getD 0 []) ∧
        0 ≤ ((minmax_scale [[(0 : ℚ), 10]]).getD 0 []).getD 1 0 ∧
        ((minmax_scale [[(0 : ℚ), 10]]).getD 0 []).getD 1 0 ≤ 1) :=
  ⟨by decide, C1_per_row_scaling [[(0 : ℚ), 10]] 0 1 (by decide)⟩

/-- C10: when every row (trial) contains at least two distinct values, every
row of the output of `minmax_scale` has minimum exactly 0 and maximum
exactly 1 — the normalization is fit independently per trial (row), and
each row is mapped onto the full [0,1] range. -/
theorem C10_per_trial_range (data : List (List ℚ))
    (h : ∀ row ∈ data, ∃ a ∈ row, ∃ b ∈ row, a ≠ b) :
    ∀ srow ∈ minmax_scale data, listMin srow = 0 ∧ listMax srow = 1 := by
  intro srow hsrow
  unfold minmax_scale at hsrow
  rcases List.mem_map.mp hsrow with ⟨row, hrow, rfl⟩
  rcases h row hrow with ⟨a, ha, b, hb, hab⟩
  have hlt : listMin row < listMax row :=
    listMin_lt_listMax_of_distinct ha hb hab
  have hne0 : listMax row - listMin row ≠ 0 := ne_of_gt (sub_pos.mpr hlt)
  have hd : rowDiv row = listMax row - listMin row := if_neg hne0
  have hdpos : 0 < rowDiv row := by
    rw [hd]
    exact sub_pos.mpr hlt
  have hnil : row ≠ [] := List.ne_nil_of_mem ha
  unfold scaleRow
  constructor
  · apply listMin_eq_of (c := (0 : ℚ))
    · have hmem := List.mem_map_of_mem
        (fun x => (x - listMin row) / rowDiv row) (listMin_mem hnil)
      simpa [sub_self] using hmem
    · intro y hy
      rcases List.mem_map.mp hy with ⟨x, hx, rfl⟩
      exact div_nonneg (by linarith [listMin_le_of_mem hx]) hdpos.le
  · apply listMax_eq_of (c := (1 : ℚ))
    · have hmem := List.mem_map_of_mem
        (fun x => (x - listMin row) / rowDiv row) (listMax_mem hnil)
      have hone : (listMax row - listMin row) / rowDiv row = 1 := by
        rw [hd]
        exact div_self hne0
      simpa [hone] using hmem
    · intro y hy
      rcases List.mem_map.mp hy with ⟨x, hx, rfl⟩
      rw [div_le_one hdpos, hd]
      linarith [le_listMax_of_mem hx]

/-- Witness for C10 at `M = [[0,10]]`. -/
theorem C10_per_trial_range_witness :
    (∀ row ∈ ([[(0 : ℚ), 10]] : List (List ℚ)),
        ∃ a ∈ row, ∃ b ∈ row, a ≠ b) ∧
      (∀ srow ∈ minmax_scale [[(0 : ℚ), 10]],
        listMin srow = 0 ∧ listMax srow = 1) :=
  ⟨by decide, C10_per_trial_range [[(0 : ℚ), 10]] (by decide)⟩

/-- C4: for every positive epoch count, the training step is invoked exactly
once per epoch and only ever with the train pair; the test and validation
pairs are only ever passed to the forecast operation (`test_model`); and
the value used for reporting is the single final forecast on the
validation pair, issued after all epochs complete. -/
theorem C4_training_loop {β : Type} [DecidableEq β]
    (tin tout tein teout vin vout : β) (epochs : ℕ) (hpos : 0 < epochs)
    (hdist : (tein, teout) ≠ (vin, vout)) :
    ((main_calls tin tout tein teout vin vout epochs).countP
        (fun c => c.isTrain)) = epochs ∧
      (∀ c ∈ main_calls tin tout tein teout vin vout epochs,
        c.isTrain = true → c = Call.train_model tin tout) ∧
      (∀ c ∈ main_calls tin tout tein teout vin vout epochs,
        c.isTrain = false →
          c = Call.test_model tein teout ∨ c = Call.test_model vin vout) ∧
      (main_calls tin tout tein teout vin vout epochs).getLast?
          = some (Call.test_model vin vout) ∧
      ((main_calls tin tout tein teout vin vout epochs).countP
          (fun c => c == Call.test_model vin vout)) = 1 := by
  refine ⟨?_, ?_, ?_, ?_, ?_⟩
  · unfold main_calls
    rw [List.countP_append, loop_countP_isTrain]
    rfl
  · intro c hc htrain
    unfold main_calls at hc
    rcases List.mem_append.mp hc with hmem | hmem
    · rcases loop_mem hmem with rfl | rfl
      · rfl
      · simp [Call.isTrain] at htrain
    · rcases List.mem_cons.mp hmem with rfl | hmem
      · simp [Call.isTrain] at htrain
      · cases hmem
  · intro c hc htest
    unfold main_calls at hc
    rcases List.mem_append.mp hc with hmem | hmem
    · rcases loop_mem hmem with rfl | rfl
      · simp [Call.isTrain] at htest
      · exact Or.inl rfl
    · rcases List.mem_cons.mp hmem with rfl | hmem
      · exact Or.inr rfl
      · cases hmem
  · exact List.getLast?_concat _
  · unfold main_calls
    rw [List.countP_append, loop_countP_val hdist]
    simp

/-- Witness for C4 over `ℕ` data with one epoch and distinct pairs. -/
theorem C4_training_loop_witness :
    ((0 : ℕ) < 1) ∧ (((2 : ℕ), (3 : ℕ)) ≠ ((4 : ℕ), (5 : ℕ))) ∧
      (((main_calls (0 : ℕ) 1 2 3 4 5 1).countP
          (fun c => c.isTrain)) = 1 ∧
        (∀ c ∈ main_calls (0 : ℕ) 1 2 3 4 5 1,
          c.isTrain = true → c = Call.train_model 0 1) ∧
        (∀ c ∈ main_calls (0 : ℕ) 1 2 3 4 5 1,
          c.isTrain = false →
            c = Call.test_model 2 3 ∨ c = Call.test_model 4 5) ∧
        (main_calls (0 : ℕ) 1 2 3 4 5 1).getLast?
            = some (Call.test_model 4 5) ∧
        ((main_calls (0 : ℕ) 1 2 3 4 5 1).countP
            (fun c => c == Call.test_model 4 5)) = 1) :=
  ⟨by decide, by decide,
    C4_training_loop 0 1 2 3 4 5 1 (by decide) (by decide)⟩

/-- C5 counterexample: in MinMax mode `invert_and_report` does **not**
apply the scaler's inverse with the retained ScalerState before the
secondary rescaling.  On scaled validation row `[0,1]` (tail `[1]`), last
unscaled row `[0,2]` with retained state `(0,2)`, the code reports
`1*(2-0)+0 = 2` while the claimed primary-then-secondary composition gives
`(1*(2-0)+0)*(2-0)+0 = 4`. -/
theorem C5_counterexample :
    report_minmax [[(0 : ℚ), 1]] [[5, 9]] [[0, 2]] 1
      ≠ report_minmax_spec [[(0 : ℚ), 1]] [[5, 9]] [[0, 2]] 1
          ((minmax_state [[(0 : ℚ), 2]]).getD 0 (0, 0)) := by
  norm_num [report_minmax, report_minmax_spec, minmax_state, listMin,
    listMax, min_def, max_def, Prod.ext_iff]

lemma mem_flatten_of_valrow {data : List (List ℝ)} {k : ℕ} {x : ℝ}
    (hx : x ∈ ((data.drop 29).headD []).drop k) : x ∈ data.flatten := by
  have hx1 : x ∈ (data.drop 29).headD [] := List.mem_of_mem_drop hx
  cases hd : data.drop 29 with
  | nil =>
    rw [hd] at hx1
    simp at hx1
  | cons r t =>
    rw [hd, List.headD_cons] at hx1
    have hr : r ∈ data.drop 29 := by
      rw [hd]
      exact List.mem_cons_self r t
    exact List.mem_flatten.mpr ⟨r, List.mem_of_mem_drop hr, hx1⟩

lemma report_log_recovers (data mo : List (List ℝ)) (k : ℕ) :
    (report_log ((log_scale data).1.drop 29) mo (log_scale data).2 k).1
      = ((data.drop 29).headD []).drop k := by
  unfold report_log
  show inv_logscale_row ((((log_scale data).1.drop 29).headD []).drop k)
      (log_scale data).2 = ((data.drop 29).headD []).drop k
  have h1 : (log_scale data).1.drop 29
      = (data.drop 29).map (fun row =>
          (row.map (fun x => x + log_inc data)).map
            (fun x => Real.logb 12 x)) := by
    unfold log_scale log_buffer
    rw [List.map_map, ← List.map_drop]
    rfl
  rw [h1, headD_map_nil _ rfl, ← List.map_drop, ← List.map_drop]
  unfold inv_logscale_row
  rw [List.map_map, List.map_map]
  apply list_map_id_of
  intro x hx
  simp only [Function.comp_apply]
  show (12 : ℝ) ^ Real.logb 12 (x + log_inc data) - log_inc data = x
  exact log_roundtrip_entry (mem_flatten_of_valrow hx)

/-- C5 corrected: in MinMax mode only the secondary rescaling
`x ↦ x * (b - a) + a` — with `a`, `b` the min and max of the last row of
the original unscaled matrix — is applied to **both** reported outputs,
the scaled validation input tail and the forecast (row 0 of the model
output, last column dropped); the scaler's primary inverse is never
invoked.  In Log mode only the primary inversion `x ↦ 12 ^ x - inc` is
applied to both reported outputs: on the validation input tail it exactly
recovers the original physical values of validation row 0, and on the
forecast (row 0 of the model output) it is applied elementwise. -/
theorem C5_reporting :
    (∀ (vi mo unscaled : List (List ℚ)) (k j : ℕ),
        j < ((vi.headD []).drop k).length →
          (report_minmax vi mo unscaled k).1.getD j 0
            = ((vi.headD []).drop k).getD j 0 *
                (listMax (unscaled.getLastD []) -
                  listMin (unscaled.getLastD [])) +
              listMin (unscaled.getLastD [])) ∧
      (∀ (vi mo unscaled : List (List ℚ)) (k j : ℕ),
        j < ((mo.headD []).dropLast).length →
          (report_minmax vi mo unscaled k).2.getD j 0
            = ((mo.headD []).dropLast).getD j 0 *
                (listMax (unscaled.getLastD []) -
                  listMin (unscaled.getLastD [])) +
              listMin (unscaled.getLastD [])) ∧
      (∀ (data mo : List (List ℝ)) (k : ℕ),
        (report_log ((log_scale data).1.drop 29) mo (log_scale data).2 k).1
          = ((data.drop 29).headD []).drop k) ∧
      (∀ (data mo : List (List ℝ)) (k j : ℕ),
        j < (mo.headD []).length →
          (report_log ((log_scale data).1.drop 29) mo
              (log_scale data).2 k).2.getD j 0
            = (12 : ℝ) ^ ((mo.headD []).getD j 0) - log_inc data) := by
  refine ⟨?_, ?_, report_log_recovers, ?_⟩
  · intro vi mo unscaled k j hj
    unfold report_minmax
    exact getD_map_entry _ _ _ hj 0 0
  · intro vi mo unscaled k j hj
    unfold report_minmax
    exact getD_map_entry _ _ _ hj 0 0
  · intro data mo k j hj
    unfold report_log inv_logscale_row
    exact getD_map_entry _ _ _ hj 0 0

/-- Witness for C5's corrected theorem: MinMax parts at scaled validation
row `[0,1]`, model output row `[5,9]`, `input_size = 0`, entry 0, last
unscaled row `[0,2]`; Log forecast part at the empty matrix with model
output row `[5,9]`. -/
theorem C5_reporting_witness :
    ((0 : ℕ) < (([[(0 : ℚ), 1]].headD []).drop 0).length) ∧
      ((report_minmax [[(0 : ℚ), 1]] [[5, 9]] [[0, 2]] 0).1.getD 0 0
        = (([[(0 : ℚ), 1]].headD []).drop 0).getD 0 0 *
            (listMax (([[(0 : ℚ), 2]] : List (List ℚ)).getLastD []) -
              listMin (([[(0 : ℚ), 2]] : List (List ℚ)).getLastD [])) +
          listMin (([[(0 : ℚ), 2]] : List (List ℚ)).getLastD [])) ∧
      ((0 : ℕ) < (([[(5 : ℚ), 9]].headD []).dropLast).length) ∧
      ((report_minmax [[(0 : ℚ), 1]] [[5, 9]] [[0, 2]] 0).2.getD 0 0
        = (([[(5 : ℚ), 9]].headD []).dropLast).getD 0 0 *
            (listMax (([[(0 : ℚ), 2]] : List (List ℚ)).getLastD []) -
              listMin (([[(0 : ℚ), 2]] : List (List ℚ)).getLastD [])) +
          listMin (([[(0 : ℚ), 2]] : List (List ℚ)).getLastD [])) ∧
      ((0 : ℕ) < (([[(5 : ℝ), 9]].headD []).length)) ∧
      ((report_log ((log_scale ([] : List (List ℝ))).1.drop 29) [[(5 : ℝ), 9]]
            (log_scale ([] : List (List ℝ))).2 0).2.getD 0 0
        = (12 : ℝ) ^ ((([[(5 : ℝ), 9]] : List (List ℝ)).headD []).getD 0 0)
            - log_inc ([] : List (List ℝ))) :=
  ⟨by decide, C5_reporting.1 [[(0 : ℚ), 1]] [[5, 9]] [[0, 2]] 0 0 (by decide),
    by decide, C5_reporting.2.1 [[(0 : ℚ), 1]] [[5, 9]] [[0, 2]] 0 0 (by decide),
    by norm_num,
    C5_reporting.2.2.2 ([] : List (List ℝ)) [[(5 : ℝ), 9]] 0 0 (by norm_num)⟩

end TMSEEG
